import Mathlib

/-
Verification development for the ObjectBox Go binding generator
(internal/generator/binding.go).

The Go source is shallowly embedded below.  Strings are modelled as lists
of characters (`Str`), so Go's byte-wise string operations become list
operations on the character sequence.  Fallible Go functions returning
`error` become `Except Str` computations.  Mutation of the `Property`,
`Entity` and `Binding` structs becomes explicit state passing.  Error
message texts follow the Go format strings, with quote and backtick
ornaments around interpolated words elided.

Embedded functions (Go name -> Lean name):
  setAnnotations      -> setAnnotations (helpers stripDelims, splitSpace,
                         splitColon, parseToken, addAnnos)
  setType             -> setType (helper baseType)
  setObFlags/setIndex -> setObFlags (helpers setObFlagsUnique, setObFlagsRel)
  createEntityFromAst -> createEntityFromAst (helpers processField,
                         processFields, inferIdLoop)
  entityLoader        -> entityLoader
  createFromAst       -> createFromAst (the tree-walk driver `f.walk` is
                         not part of the given sources; it is modelled
                         from the spec as a fold over the visited nodes)
  FbSlot              -> FbSlot
  FbvTableOffset      -> FbvTableOffset
-/

namespace ObxGen

/- A Go string, as its sequence of characters. -/
abbrev Str := List Char

def str (s : String) : Str := s.data

/- The backquote character, used by Go raw struct-tag literals. -/
def backquote : Char := Char.ofNat 96

/- Go unicode.IsSpace on the characters relevant to struct tags. -/
def isSpaceGo (c : Char) : Bool :=
  c = ' ' || c = '\t' || c = '\n' || c = Char.ofNat 11 || c = Char.ofNat 12 ||
  c = '\r' || c = Char.ofNat 133 || c = Char.ofNat 160

/- Go strings.TrimSpace. -/
def trimSpace (l : Str) : Str :=
  ((l.dropWhile isSpaceGo).reverse.dropWhile isSpaceGo).reverse

/- Go strings.ToLower (ASCII range, which is all the generator compares). -/
def lowerChar (c : Char) : Char :=
  if 'A' ≤ c ∧ c ≤ 'Z' then Char.ofNat (c.toNat + 32) else c

def toLowerStr (l : Str) : Str := l.map lowerChar

/- Go strings.Split(s, " "): split at every space, keeping empty pieces. -/
def splitSpaceAux : Str → Str → List Str
  | [], acc => [acc.reverse]
  | c :: cs, acc =>
    if c = ' ' then acc.reverse :: splitSpaceAux cs []
    else splitSpaceAux cs (c :: acc)

def splitSpace (l : Str) : List Str := splitSpaceAux l []

/- Go strings.IndexRune(tag, ':'), together with the two slices
   tag[0:i] and tag[i+1:] the annotation loop takes around it. -/
def splitColon : Str → Option (Str × Str)
  | [] => none
  | c :: cs =>
    if c = ':' then some ([], cs)
    else
      match splitColon cs with
      | some (a, b) => some (c :: a, b)
      | none => none

/- First-match association-list lookup, standing for the Go map access
   property.Annotations[name] (keys are unique by construction, so the
   map and the list agree). -/
def alookup (k : Str) : List (Str × Str) → Option Str
  | [] => none
  | (a, v) :: rest => if a = k then some v else alookup k rest

/- The symmetric delimiter stripping at the top of setAnnotations:
   if len(tags) > 1 and tags[0] == tags[len(tags)-1] and the first
   character is a backquote or double quote, drop both. -/
def stripDelims (tags : Str) : Str :=
  if 1 < tags.length ∧ tags.head? = tags.getLast? ∧
      (tags.head? = some backquote ∨ tags.head? = some '"') then
    tags.tail.dropLast
  else tags

/- One token of the annotation loop body: either a bare flag, or a
   name:"value" pair whose value must be wrapped in double quotes and is
   then trimmed of surrounding whitespace.  The name is lowercased. -/
def parseToken (tok : Str) : Except Str (Str × Str) :=
  match splitColon tok with
  | some (name, rest) =>
    if rest.length > 1 ∧ rest.head? = some '"' ∧ rest.getLast? = some '"' then
      .ok (toLowerStr name, trimSpace rest.tail.dropLast)
    else
      .error (str "invalid annotation value " ++ rest ++ str " for " ++ name ++
              str ", expecting name:\"value\" format")
  | none => .ok (toLowerStr tok, [])

/- The token fold of setAnnotations: empty tokens are skipped, duplicate
   (lowercased) names are an error, otherwise the entry is recorded. -/
def addAnnos : List Str → List (Str × Str) → Except Str (List (Str × Str))
  | [], acc => .ok acc
  | tok :: rest, acc =>
    if tok = [] then addAnnos rest acc
    else
      match parseToken tok with
      | .error e => .error e
      | .ok (name, value) =>
        if (alookup name acc).isSome then
          .error (str "duplicate annotation " ++ name)
        else addAnnos rest (acc ++ [(name, value)])

/- Property.setAnnotations. -/
def setAnnotations (tags0 : Str) : Except Str (List (Str × Str)) :=
  let tags := stripDelims tags0
  if tags = [] then .ok []
  else addAnnos (splitSpace tags) []

/- The fixed type table of Property.setType: declared Go type text to
   (ObType, FbType). -/
def baseType (ts : Str) : Option (Str × Str) :=
  if ts = str "string" then some (str "String", str "UOffsetT")
  else if ts = str "int" then some (str "Long", str "Int64")
  else if ts = str "int64" then some (str "Long", str "Int64")
  else if ts = str "uint" then some (str "Long", str "Uint64")
  else if ts = str "uint64" then some (str "Long", str "Uint64")
  else if ts = str "int32" then some (str "Int", str "Int32")
  else if ts = str "rune" then some (str "Int", str "Int32")
  else if ts = str "uint32" then some (str "Int", str "Uint32")
  else if ts = str "int16" then some (str "Short", str "Int16")
  else if ts = str "uint16" then some (str "Short", str "Uint16")
  else if ts = str "int8" then some (str "Byte", str "Int8")
  else if ts = str "uint8" then some (str "Byte", str "Uint8")
  else if ts = str "byte" then some (str "Byte", str "Byte")
  else if ts = str "[]byte" then some (str "ByteVector", str "UOffsetT")
  else if ts = str "float64" then some (str "Double", str "Float64")
  else if ts = str "float32" then some (str "Float", str "Float32")
  else if ts = str "bool" then some (str "Bool", str "Bool")
  else none

def unknownTypeMsg (ts : Str) : Str := str "unknown type " ++ ts

def invalidDateMsg (ob : Str) : Str :=
  str "invalid underlying type (" ++ ob ++ str ") for date field"

def invalidRelMsg (ob : Str) : Str :=
  str "invalid underlying type (" ++ ob ++ str ") for relation field"

/- The link refinement at the end of Property.setType, applied to the
   logical type left by the date step. -/
def setTypeLink (ob1 fb : Str) (annos : List (Str × Str)) :
    Except Str (Str × Str × Option Str) :=
  match alookup (str "link") annos with
  | some tgt =>
    if ob1 = str "Long" then .ok (str "Relation", fb, some tgt)
    else .error (invalidRelMsg ob1)
  | none => .ok (ob1, fb, none)

/- Property.setType: base table lookup, then the date refinement, then
   the link refinement.  Returns (ObType, FbType, Relation target). -/
def setType (goType : Str) (annos : List (Str × Str)) :
    Except Str (Str × Str × Option Str) :=
  match baseType goType with
  | none => .error (unknownTypeMsg goType)
  | some (ob0, fb) =>
    match alookup (str "date") annos with
    | some _ =>
      if ob0 = str "Long" then setTypeLink (str "Date") fb annos
      else .error (invalidDateMsg ob0)
    | none => setTypeLink ob0 fb annos

def unknownIndexMsg (v : Str) : Str := str "unknown index type " ++ v

def indexDefinedMsg : Str := str "index is already defined"

/- Tail of Property.setObFlags: the relation check.  `hasIdx` is whether
   property.Index has already been allocated (Property.setIndex errors on
   a second allocation). -/
def setObFlagsRel (rel : Option Str) (flags : List Str) (hasIdx : Bool) :
    Except Str (List Str × Bool) :=
  match rel with
  | some _ => if hasIdx then .error indexDefinedMsg else .ok (flags, true)
  | none => .ok (flags, hasIdx)

/- Middle of Property.setObFlags: the unique-annotation check. -/
def setObFlagsUnique (annos : List (Str × Str)) (rel : Option Str)
    (flags : List Str) (hasIdx : Bool) : Except Str (List Str × Bool) :=
  match alookup (str "unique") annos with
  | some _ =>
    if hasIdx then .error indexDefinedMsg
    else setObFlagsRel rel (flags ++ [str "UNIQUE"]) true
  | none => setObFlagsRel rel flags hasIdx

/- Property.setObFlags (with setIndex inlined as the hasIdx flag, which
   starts false on the freshly built property).  Returns the final ObFlags
   and whether an Index record was allocated. -/
def setObFlags (annos : List (Str × Str)) (rel : Option Str) :
    Except Str (List Str × Bool) :=
  let flags0 := if (alookup (str "id") annos).isSome then [str "ID"] else []
  match alookup (str "index") annos with
  | some v =>
    let lv := toLowerStr v
    if lv = [] then setObFlagsUnique annos rel (flags0 ++ [str "INDEXED"]) true
    else if lv = str "value" then
      setObFlagsUnique annos rel (flags0 ++ [str "INDEXED", str "INDEX_VALUE"]) true
    else if lv = str "hash" then
      setObFlagsUnique annos rel (flags0 ++ [str "INDEXED", str "INDEX_HASH"]) true
    else if lv = str "hash64" then
      setObFlagsUnique annos rel (flags0 ++ [str "INDEXED", str "INDEX_HASH64"]) true
    else .error (unknownIndexMsg v)
  | none => setObFlagsUnique annos rel flags0 false

/- One struct field of the AST: its name list (the generator insists on
   exactly one name), its raw tag literal if any, and the rendered type
   expression text (types.ExprString(f.Type)). -/
structure Field where
  names : List Str
  tag : Option Str
  typ : Str
deriving DecidableEq, Repr

def headName (f : Field) : Str := f.names.headD []

/- A built property (Id/Uid are assigned by the external model registry
   and play no part in entity building, so they are not modelled). -/
structure Property where
  Name : Str
  ObName : Str
  Annotations : List (Str × Str)
  ObType : Str
  ObFlags : List Str
  GoType : Str
  FbType : Str
  Relation : Option Str
  Index : Bool
deriving DecidableEq, Repr

/- A built entity; IdProperty is the index of the identity property in
   Properties. -/
structure Entity where
  Name : Str
  Properties : List Property
  IdProperty : Option Nat
deriving DecidableEq, Repr

/- The mutable state of the field loop in createEntityFromAst:
   entity.Properties, entity.IdProperty, and the propertiesByName set
   (kept as the list of lowercased names in insertion order). -/
structure BState where
  props : List Property
  idIdx : Option Nat
  names : List Str
deriving DecidableEq, Repr

/- Annotation parsing of one field: Go leaves Annotations nil when the
   field has no tag. -/
def fieldAnnos (f : Field) : Except Str (List (Str × Str)) :=
  match f.tag with
  | none => .ok []
  | some t => setAnnotations t

def propErr (e pname ename : Str) : Str :=
  e ++ str " on property " ++ pname ++ str ", entity " ++ ename

def dupNameMsg : Str :=
  str "duplicate name (note that property names are case insensitive)"

def emptyNameInDbMsg : Str := str "nameInDb annotation value must not be empty"

def multiIdMsg (ename n1 n2 : Str) : Str :=
  str "struct " ++ ename ++ str " has multiple ID properties - " ++ n1 ++
  str " and " ++ n2

def multiNameMsg (ename : Str) (n : Nat) : Str :=
  str "struct " ++ ename ++
  str " has a f with an invalid number of names, one expected, got " ++
  str (toString n)

def noPropsMsg (ename : Str) : Str :=
  str "there are no properties in the entity " ++ ename

def missingIdMsg (ename : Str) : Str :=
  str "id field is missing on entity " ++ ename ++
  str " - either annotate a field with id tag or use a uint64 field named Id/id/ID"

def ambiguousIdMsg (ename : Str) : Str :=
  str "id field is missing on entity " ++ ename ++
  str " - annotate a field with id tag"

def nameAt (props : List Property) (j : Nat) : Str :=
  match props[j]? with
  | some p => p.Name
  | none => []

/- Field-loop tail: the nameInDb / duplicate-name checks and the append
   of the finished property. -/
def finishField (ename : Str) (st : BState) (f : Field)
    (annos : List (Str × Str)) (ob fb : Str) (rel : Option Str)
    (flags : List Str) (hasIdx : Bool) (idIdx' : Option Nat) (obName : Str) :
    Except Str BState :=
  let real := toLowerStr obName
  if real ∈ st.names then .error (propErr dupNameMsg (headName f) ename)
  else
    .ok ⟨st.props ++ [⟨headName f, obName, annos, ob, flags, f.typ, fb, rel, hasIdx⟩],
         idIdx', st.names ++ [real]⟩

def processField3 (ename : Str) (st : BState) (f : Field)
    (annos : List (Str × Str)) (ob fb : Str) (rel : Option Str)
    (flags : List Str) (hasIdx : Bool) (idIdx' : Option Nat) :
    Except Str BState :=
  match alookup (str "nameindb") annos with
  | some v =>
    if v = [] then .error (propErr emptyNameInDbMsg (headName f) ename)
    else finishField ename st f annos ob fb rel flags hasIdx idIdx' v
  | none => finishField ename st f annos ob fb rel flags hasIdx idIdx' (headName f)

/- Field-loop middle: the explicit-id bookkeeping (a second id-annotated
   field is an error naming both fields). -/
def processField2 (ename : Str) (st : BState) (f : Field)
    (annos : List (Str × Str)) (ob fb : Str) (rel : Option Str)
    (flags : List Str) (hasIdx : Bool) : Except Str BState :=
  if (alookup (str "id") annos).isSome then
    match st.idIdx with
    | some j => .error (multiIdMsg ename (nameAt st.props j) (headName f))
    | none => processField3 ename st f annos ob fb rel flags hasIdx (some st.props.length)
  else processField3 ename st f annos ob fb rel flags hasIdx st.idIdx

/- One iteration of the field loop of createEntityFromAst. -/
def processField (ename : Str) (st : BState) (f : Field) : Except Str BState :=
  if f.names.length ≠ 1 then .error (multiNameMsg ename f.names.length)
  else
    match fieldAnnos f with
    | .error e => .error (propErr e (headName f) ename)
    | .ok annos =>
      if (alookup (str "transient") annos).isSome then .ok st
      else
        match setType f.typ annos with
        | .error e => .error (propErr e (headName f) ename)
        | .ok (ob, fb, rel) =>
          match setObFlags annos rel with
          | .error e => .error (propErr e (headName f) ename)
          | .ok (flags, hasIdx) => processField2 ename st f annos ob fb rel flags hasIdx

def processFields (ename : Str) : BState → List Field → Except Str BState
  | st, [] => .ok st
  | st, f :: fs =>
    match processField ename st f with
    | .error e => .error e
    | .ok st' => processFields ename st' fs

/- The after-the-fact ID flag added when identity is inferred by name. -/
def flagId (p : Property) : Property := {p with ObFlags := p.ObFlags ++ [str "ID"]}

/- The identity-inference candidate test of createEntityFromAst:
   strings.ToLower(Name) == "id" and strings.ToLower(GoType) == "uint64". -/
def isIdCandidate (p : Property) : Bool :=
  decide (toLowerStr p.Name = str "id" ∧ toLowerStr p.GoType = str "uint64")

/- The identity-inference loop of createEntityFromAst: adopt the first
   candidate (tagging it with the ID flag), fail on a second candidate,
   fail if none was found. -/
def inferIdLoop (ename : Str) :
    List Property → List Property → Option Nat → Except Str (List Property × Nat)
  | [], _, none => .error (missingIdMsg ename)
  | [], acc, some j => .ok (acc, j)
  | p :: rest, acc, found =>
    if isIdCandidate p then
      match found with
      | none => inferIdLoop ename rest (acc ++ [flagId p]) (some acc.length)
      | some _ => .error (ambiguousIdMsg ename)
    else inferIdLoop ename rest (acc ++ [p]) found

/- Binding.createEntityFromAst. -/
def createEntityFromAst (ename : Str) (fields : List Field) : Except Str Entity :=
  match processFields ename ⟨[], none, []⟩ fields with
  | .error e => .error e
  | .ok st =>
    if st.props.length = 0 then .error (noPropsMsg ename)
    else
      match st.idIdx with
      | some j => .ok ⟨ename, st.props, some j⟩
      | none =>
        match inferIdLoop ename st.props [] none with
        | .error e => .error e
        | .ok (props', j) => .ok ⟨ename, props', some j⟩

/- The Binding aggregate. -/
structure Binding where
  Package : Str
  Entities : List Entity
  currentEntityName : Str
  err : Option Str
deriving DecidableEq, Repr

def structNoNameMsg : Str := str "encountered a struct without a name"

/- The four node shapes Binding.entityLoader distinguishes. -/
inductive GoNode where
  | typeSpec (name : Str)
  | structType (fields : List Field)
  | genDecl
  | file
  | other
deriving DecidableEq, Repr

/- Binding.entityLoader: one tree-walk callback invocation.  Returns the
   updated binding and whether the walk should descend further. -/
def entityLoader (b : Binding) (n : GoNode) : Binding × Bool :=
  if b.err.isSome then (b, false)
  else
    match n with
    | .typeSpec name => ({b with currentEntityName := name}, true)
    | .structType fields =>
      if b.currentEntityName = [] then
        ({b with err := some structNoNameMsg}, false)
      else
        match createEntityFromAst b.currentEntityName fields with
        | .error e => ({b with err := some e, currentEntityName := []}, true)
        | .ok ent =>
          ({b with Entities := b.Entities ++ [ent], currentEntityName := []}, true)
    | .genDecl => (b, true)
    | .file => (b, true)
    | .other => (b, false)

/- Modelled from the spec: the tree-walk driver f.walk invoked by
   Binding.createFromAst is not among the given sources; per spec section
   4.5 it feeds the callback each visited node in depth-first order, so it
   is modelled as a fold of entityLoader over the visited node sequence. -/
def walkFold : Binding → List GoNode → Binding
  | b, [] => b
  | b, n :: ns => walkFold (entityLoader b n).1 ns

/- Binding.createFromAst: run the walk, then surface the sticky error. -/
def createFromAst (pkg : Str) (nodes : List GoNode) : Except Str Binding :=
  let b := walkFold ⟨pkg, [], [], none⟩ nodes
  match b.err with
  | some e => .error e
  | none => .ok b

/- Property.FbSlot: int(property.Id - 1), with Id a uint32. -/
def FbSlot (propId : Nat) : Nat := (propId + (2 ^ 32 - 1)) % 2 ^ 32

/- Property.FbvTableOffset: result = 4 + 2*uint32(FbSlot()) in uint32
   arithmetic; panic (modelled as none) when uint32(uint16(result)) is no
   longer result, i.e. when result does not fit in 16 bits. -/
def FbvTableOffset (propId : Nat) : Option Nat :=
  let result := (4 + 2 * (FbSlot propId % 2 ^ 32)) % 2 ^ 32
  if result % 2 ^ 16 = result then some result else none

/- Derived field predicates used to state the claims. -/

/- The field's tag parses and the field is not dropped as transient. -/
def isRetained (f : Field) : Bool :=
  match fieldAnnos f with
  | .ok a => (alookup (str "transient") a).isNone
  | .error _ => false

/- The field's tag parses and carries the id annotation. -/
def carriesId (f : Field) : Bool :=
  match fieldAnnos f with
  | .ok a => (alookup (str "id") a).isSome
  | .error _ => false

def isExplicitId (f : Field) : Bool := isRetained f && carriesId f

/- Identity-inference candidate, read off the field. -/
def isCandField (f : Field) : Bool :=
  isRetained f &&
  decide (toLowerStr (headName f) = str "id" ∧ toLowerStr f.typ = str "uint64")

/- The case-folded storage name a retained field would claim. -/
def storageKey (f : Field) : Option Str :=
  match fieldAnnos f with
  | .error _ => none
  | .ok a =>
    if (alookup (str "transient") a).isSome then none
    else
      match alookup (str "nameindb") a with
      | some v => some (toLowerStr v)
      | none => some (toLowerStr (headName f))

/- The field projection recorded by the loop, for relating built
   properties back to fields. -/
def retProj (f : Field) : Option (Str × Str) :=
  if isRetained f then some (headName f, f.typ) else none

def projNT (p : Property) : Str × Str := (p.Name, p.GoType)

def candNT (nt : Str × Str) : Bool :=
  decide (toLowerStr nt.1 = str "id" ∧ toLowerStr nt.2 = str "uint64")

def countIf : Option Nat → Nat
  | some _ => 1
  | none => 0

/- How many of the three index-allocating conditions hold. -/
def condCount (annos : List (Str × Str)) (rel : Option Str) : Nat :=
  (if (alookup (str "index") annos).isSome then 1 else 0) +
  (if (alookup (str "unique") annos).isSome then 1 else 0) +
  (if rel.isSome then 1 else 0)

/- The index-value sub-flag table, keyed by the lowercased value. -/
def subFlagTable (lv : Str) : Option (List Str) :=
  if lv = [] then some []
  else if lv = str "value" then some [str "INDEX_VALUE"]
  else if lv = str "hash" then some [str "INDEX_HASH"]
  else if lv = str "hash64" then some [str "INDEX_HASH64"]
  else none

def isOkE {α : Type} : Except Str α → Bool
  | .ok _ => true
  | .error _ => false

/- Well-formed tag tokens, for stating the annotation-parser claim. -/

inductive Tok where
  | bare (name : Str)
  | kv (name : Str) (value : Str)
deriving DecidableEq, Repr

def tokName : Tok → Str
  | .bare n => n
  | .kv n _ => n

def renderTok : Tok → Str
  | .bare n => n
  | .kv n v => n ++ ':' :: '"' :: (v ++ ['"'])

def tokEntry : Tok → Str × Str
  | .bare n => (toLowerStr n, [])
  | .kv n v => (toLowerStr n, trimSpace v)

/- A token name: nonempty, and free of spaces, colons, double quotes and
   backquotes. -/
def wfName (n : Str) : Bool :=
  !n.isEmpty && n.all fun c => !(c = ' ' || c = ':' || c = '"' || c = backquote)

/- A token value: free of spaces (a space would split the token). -/
def wfTok : Tok → Bool
  | .bare n => wfName n
  | .kv n v => wfName n && v.all (fun c => !(c = ' '))

/- Space-separated joining of tokens into one tag string. -/
def joinSp : List Str → Str
  | [] => []
  | [p] => p
  | p :: ps => p ++ ' ' :: joinSp ps

end ObxGen

namespace ObxGen

/- Stage lemmas for the field loop. -/

theorem finishField_ok {ename : Str} {st : BState} {f : Field}
    {annos : List (Str × Str)} {ob fb : Str} {rel : Option Str}
    {flags : List Str} {hasIdx : Bool} {idIdx' : Option Nat} {obName : Str}
    {st' : BState}
    (h : finishField ename st f annos ob fb rel flags hasIdx idIdx' obName = .ok st') :
    st'.props = st.props ++ [⟨headName f, obName, annos, ob, flags, f.typ, fb, rel, hasIdx⟩] ∧
    st'.idIdx = idIdx' ∧
    st'.names = st.names ++ [toLowerStr obName] ∧
    toLowerStr obName ∉ st.names := by
  simp only [finishField] at h
  split at h
  · cases h
  · rename_i hmem
    cases h
    exact ⟨rfl, rfl, rfl, hmem⟩

theorem processField3_ok {ename : Str} {st : BState} {f : Field}
    {annos : List (Str × Str)} {ob fb : Str} {rel : Option Str}
    {flags : List Str} {hasIdx : Bool} {idIdx' : Option Nat} {st' : BState}
    (h : processField3 ename st f annos ob fb rel flags hasIdx idIdx' = .ok st') :
    ∃ obName,
      ((alookup (str "nameindb") annos = some obName ∧ obName ≠ []) ∨
       (alookup (str "nameindb") annos = none ∧ obName = headName f)) ∧
      st'.props = st.props ++ [⟨headName f, obName, annos, ob, flags, f.typ, fb, rel, hasIdx⟩] ∧
      st'.idIdx = idIdx' ∧
      st'.names = st.names ++ [toLowerStr obName] ∧
      toLowerStr obName ∉ st.names := by
  unfold processField3 at h
  split at h
  · rename_i v hv
    split at h
    · cases h
    · rename_i hne
      exact ⟨v, Or.inl ⟨hv, hne⟩, finishField_ok h⟩
  · rename_i hv
    exact ⟨headName f, Or.inr ⟨hv, rfl⟩, finishField_ok h⟩

theorem processField2_ok {ename : Str} {st : BState} {f : Field}
    {annos : List (Str × Str)} {ob fb : Str} {rel : Option Str}
    {flags : List Str} {hasIdx : Bool} {st' : BState}
    (h : processField2 ename st f annos ob fb rel flags hasIdx = .ok st') :
    ∃ idIdx',
      ((alookup (str "id") annos).isSome = true →
        st.idIdx = none ∧ idIdx' = some st.props.length) ∧
      ((alookup (str "id") annos).isSome = false → idIdx' = st.idIdx) ∧
      processField3 ename st f annos ob fb rel flags hasIdx idIdx' = .ok st' := by
  unfold processField2 at h
  split at h
  · rename_i hid
    split at h
    · cases h
    · rename_i hnone
      refine ⟨some st.props.length, fun _ => ⟨hnone, rfl⟩, ?_, h⟩
      intro hc
      rw [hid] at hc
      exact Bool.noConfusion hc
  · rename_i hid
    refine ⟨st.idIdx, fun hc => absurd hc hid, fun _ => rfl, h⟩

theorem processField_ok {ename : Str} {st : BState} {f : Field} {st' : BState}
    (h : processField ename st f = .ok st') :
    (∃ a, fieldAnnos f = .ok a ∧ (alookup (str "transient") a).isSome = true ∧
      isRetained f = false ∧ st' = st) ∨
    (isRetained f = true ∧ ∃ annos ob fb rel flags hasIdx,
      fieldAnnos f = .ok annos ∧
      setType f.typ annos = .ok (ob, fb, rel) ∧
      setObFlags annos rel = .ok (flags, hasIdx) ∧
      ∃ idIdx' obName,
        ((alookup (str "id") annos).isSome = true →
          st.idIdx = none ∧ idIdx' = some st.props.length) ∧
        ((alookup (str "id") annos).isSome = false → idIdx' = st.idIdx) ∧
        ((alookup (str "nameindb") annos = some obName ∧ obName ≠ []) ∨
         (alookup (str "nameindb") annos = none ∧ obName = headName f)) ∧
        st'.props = st.props ++ [⟨headName f, obName, annos, ob, flags, f.typ, fb, rel, hasIdx⟩] ∧
        st'.idIdx = idIdx' ∧
        st'.names = st.names ++ [toLowerStr obName] ∧
        toLowerStr obName ∉ st.names) := by
  unfold processField at h
  split at h
  · cases h
  · split at h
    · cases h
    · rename_i annos hann
      split at h
      · rename_i htr
        cases h
        refine Or.inl ⟨annos, hann, htr, ?_, rfl⟩
        unfold isRetained
        rw [hann]
        simp [htr]
      · rename_i htr
        split at h
        · cases h
        · rename_i ob fb rel hty
          split at h
          · cases h
          · rename_i flags hasIdx hfl
            obtain ⟨idIdx', h1, h2, h3⟩ := processField2_ok h
            obtain ⟨obName, h4, h5, h6, h7, h8⟩ := processField3_ok h3
            refine Or.inr ⟨?_, annos, ob, fb, rel, flags, hasIdx, hann, hty, hfl,
              idIdx', obName, h1, h2, h4, h5, h6, h7, h8⟩
            unfold isRetained
            rw [hann]
            simp at htr
            simp [htr]

end ObxGen

namespace ObxGen

/- Small rewrites tying the field predicates to a parsed annotation set. -/

theorem isRetained_eq {f : Field} {a : List (Str × Str)}
    (h : fieldAnnos f = .ok a) :
    isRetained f = (alookup (str "transient") a).isNone := by
  unfold isRetained
  rw [h]

theorem carriesId_eq {f : Field} {a : List (Str × Str)}
    (h : fieldAnnos f = .ok a) :
    carriesId f = (alookup (str "id") a).isSome := by
  unfold carriesId
  rw [h]

theorem countIf_le_one (o : Option Nat) : countIf o ≤ 1 := by
  cases o <;> simp [countIf]

/- Per-field corollaries of processField_ok. -/

theorem processField_ok_annos {ename : Str} {st : BState} {f : Field} {st' : BState}
    (h : processField ename st f = .ok st') : ∃ a, fieldAnnos f = .ok a := by
  rcases processField_ok h with ⟨a, ha, -⟩ | ⟨-, a, -, -, -, -, -, ha, -⟩ <;> exact ⟨a, ha⟩

theorem processField_ok_id {ename : Str} {st : BState} {f : Field} {st' : BState}
    (h : processField ename st f = .ok st') :
    countIf st'.idIdx = countIf st.idIdx + (if isExplicitId f then 1 else 0) := by
  rcases processField_ok h with ⟨a, ha, htr, hret, rfl⟩ |
    ⟨hret, annos, ob, fb, rel, flags, hasIdx, hann, -, -, idIdx', obName, h1, h2, -, -, h5, -⟩
  · simp [isExplicitId, hret]
  · have hc := carriesId_eq hann
    unfold isExplicitId
    rw [hret, hc]
    cases hid : (alookup (str "id") annos).isSome with
    | true =>
      obtain ⟨hnone, hy⟩ := h1 hid
      rw [h5, hy, hnone]
      simp [countIf]
    | false =>
      rw [h5, h2 hid]
      simp [countIf]

theorem processField_ok_names {ename : Str} {st : BState} {f : Field} {st' : BState}
    (h : processField ename st f = .ok st') :
    st'.names = st.names ++ (storageKey f).toList ∧
    (∀ k, storageKey f = some k → k ∉ st.names) := by
  rcases processField_ok h with ⟨a, ha, htr, hret, rfl⟩ |
    ⟨hret, annos, ob, fb, rel, flags, hasIdx, hann, -, -, idIdx', obName, -, -, h4, -, -, h7, h8⟩
  · have : storageKey f = none := by
      unfold storageKey
      rw [ha]
      simp [htr]
    simp [this]
  · have htr' : (alookup (str "transient") annos).isSome = false := by
      have := isRetained_eq hann
      rw [hret] at this
      simpa [Option.isNone_iff_eq_none, Option.isSome_iff_exists] using this.symm
    have hsk : storageKey f = some (toLowerStr obName) := by
      unfold storageKey
      rw [hann]
      rcases h4 with ⟨hv, -⟩ | ⟨hv, rfl⟩ <;> simp [htr', hv]
    refine ⟨by rw [h7, hsk]; rfl, ?_⟩
    intro k hk
    rw [hsk] at hk
    cases hk
    exact h8

theorem processField_ok_projs {ename : Str} {st : BState} {f : Field} {st' : BState}
    (h : processField ename st f = .ok st') :
    st'.props.map projNT = st.props.map projNT ++ (retProj f).toList := by
  rcases processField_ok h with ⟨a, ha, htr, hret, rfl⟩ |
    ⟨hret, annos, ob, fb, rel, flags, hasIdx, hann, -, -, idIdx', obName, -, -, -, h5, -, -, -⟩
  · simp [retProj, hret]
  · rw [h5]
    simp [retProj, hret, projNT, headName]

theorem processField_ok_nameindb {ename : Str} {st : BState} {f : Field} {st' : BState}
    (h : processField ename st f = .ok st') {a : List (Str × Str)}
    (ha : fieldAnnos f = .ok a) (htr : (alookup (str "transient") a).isNone = true)
    (hn : alookup (str "nameindb") a = some []) : False := by
  rcases processField_ok h with ⟨a', ha', htr', -, -⟩ |
    ⟨-, annos, ob, fb, rel, flags, hasIdx, hann, -, -, idIdx', obName, -, -, h4, -, -, -, -⟩
  · rw [ha] at ha'
    cases ha'
    rw [Option.isNone_iff_eq_none] at htr
    rw [htr] at htr'
    exact Bool.noConfusion htr'
  · rw [ha] at hann
    cases hann
    rcases h4 with ⟨hv, hne⟩ | ⟨hv, -⟩
    · rw [hn] at hv
      cases hv
      exact hne rfl
    · rw [hn] at hv
      cases hv

/- Fold lemmas for the whole field loop. -/

theorem processFields_cons_ok {ename : Str} {st : BState} {f : Field}
    {fs : List Field} {st' : BState}
    (h : processFields ename st (f :: fs) = .ok st') :
    ∃ st₁, processField ename st f = .ok st₁ ∧ processFields ename st₁ fs = .ok st' := by
  unfold processFields at h
  split at h
  · cases h
  · rename_i st₁ hst₁
    exact ⟨st₁, hst₁, h⟩

theorem processFields_append (ename : Str) (xs ys : List Field) (st : BState) :
    processFields ename st (xs ++ ys) =
      match processFields ename st xs with
      | .error e => .error e
      | .ok st₁ => processFields ename st₁ ys := by
  induction xs generalizing st with
  | nil => simp [processFields]
  | cons f xs ih =>
    simp only [List.cons_append, processFields]
    cases processField ename st f with
    | error e => rfl
    | ok st₁ => exact ih st₁

theorem processFields_ok_names {ename : Str} {fs : List Field} {st st' : BState}
    (h : processFields ename st fs = .ok st') :
    st'.names = st.names ++ fs.filterMap storageKey := by
  induction fs generalizing st with
  | nil =>
    unfold processFields at h
    cases h
    simp
  | cons f fs ih =>
    obtain ⟨st₁, h1, h2⟩ := processFields_cons_ok h
    have := (processField_ok_names h1).1
    rw [ih h2, this]
    cases hsk : storageKey f <;> simp [hsk, List.filterMap_cons]

theorem processFields_ok_nodup {ename : Str} {fs : List Field} {st st' : BState}
    (h : processFields ename st fs = .ok st') (hd : st.names.Nodup) :
    st'.names.Nodup := by
  induction fs generalizing st with
  | nil =>
    unfold processFields at h
    cases h
    exact hd
  | cons f fs ih =>
    obtain ⟨st₁, h1, h2⟩ := processFields_cons_ok h
    obtain ⟨he, hfresh⟩ := processField_ok_names h1
    refine ih h2 ?_
    rw [he]
    cases hsk : storageKey f with
    | none => simpa using hd
    | some k =>
      have := hfresh k hsk
      simp [List.nodup_append, hd, this]

theorem processFields_ok_projs {ename : Str} {fs : List Field} {st st' : BState}
    (h : processFields ename st fs = .ok st') :
    st'.props.map projNT = st.props.map projNT ++ fs.filterMap retProj := by
  induction fs generalizing st with
  | nil =>
    unfold processFields at h
    cases h
    simp
  | cons f fs ih =>
    obtain ⟨st₁, h1, h2⟩ := processFields_cons_ok h
    have := processField_ok_projs h1
    rw [ih h2, this]
    cases hr : retProj f <;> simp [hr, List.filterMap_cons]

theorem processFields_ok_idcount {ename : Str} {fs : List Field} {st st' : BState}
    (h : processFields ename st fs = .ok st') :
    countIf st'.idIdx = countIf st.idIdx + fs.countP isExplicitId := by
  induction fs generalizing st with
  | nil =>
    unfold processFields at h
    cases h
    simp [List.countP, List.countP.go]
  | cons f fs ih =>
    obtain ⟨st₁, h1, h2⟩ := processFields_cons_ok h
    have hstep := processField_ok_id h1
    rw [List.countP_cons, ih h2, hstep]
    ring

theorem processFields_ok_allparse {ename : Str} {fs : List Field} {st st' : BState}
    (h : processFields ename st fs = .ok st') :
    ∀ f ∈ fs, ∃ a, fieldAnnos f = .ok a := by
  induction fs generalizing st with
  | nil => intro f hf; cases hf
  | cons g fs ih =>
    obtain ⟨st₁, h1, h2⟩ := processFields_cons_ok h
    intro f hf
    rcases hf with _ | hf
    · exact processField_ok_annos h1
    · exact ih h2 f (by assumption)

theorem processFields_ok_nameindb {ename : Str} {fs : List Field} {st st' : BState}
    (h : processFields ename st fs = .ok st') :
    ∀ f ∈ fs, ∀ a, fieldAnnos f = .ok a →
      (alookup (str "transient") a).isNone = true →
      alookup (str "nameindb") a = some [] → False := by
  induction fs generalizing st with
  | nil => intro f hf; cases hf
  | cons g fs ih =>
    obtain ⟨st₁, h1, h2⟩ := processFields_cons_ok h
    intro f hf
    rcases hf with _ | hf
    · exact fun a ha htr hn => processField_ok_nameindb h1 ha htr hn
    · exact ih h2 f (by assumption)

end ObxGen

namespace ObxGen

/- Identity-inference loop lemmas. -/

theorem inferIdLoop_some {ename : Str} {ps acc res : List Property} {j j' : Nat}
    (h : inferIdLoop ename ps acc (some j) = .ok (res, j')) :
    j' = j ∧ res = acc ++ ps ∧ ps.countP isIdCandidate = 0 := by
  induction ps generalizing acc with
  | nil =>
    unfold inferIdLoop at h
    cases h
    simp [List.countP, List.countP.go]
  | cons p rest ih =>
    unfold inferIdLoop at h
    split at h
    · cases h
    · rename_i hcand
      obtain ⟨h1, h2, h3⟩ := ih h
      simp only [Bool.not_eq_true] at hcand
      refine ⟨h1, by simpa using h2, ?_⟩
      rw [List.countP_cons, h3]
      simp [hcand]

theorem inferIdLoop_none {ename : Str} {ps acc res : List Property} {j : Nat}
    (h : inferIdLoop ename ps acc none = .ok (res, j)) :
    ps.countP isIdCandidate = 1 ∧
    ∃ p, res[j]? = some p ∧ isIdCandidate p = true ∧ (str "ID") ∈ p.ObFlags := by
  induction ps generalizing acc with
  | nil => exact absurd h (by unfold inferIdLoop; simp)
  | cons p rest ih =>
    unfold inferIdLoop at h
    split at h
    · rename_i hcand
      obtain ⟨h1, h2, h3⟩ := inferIdLoop_some h
      subst h2
      constructor
      · rw [List.countP_cons, h3]
        simp [hcand]
      · refine ⟨flagId p, ?_, ?_, ?_⟩
        · rw [h1, List.append_assoc, List.getElem?_append_right (by simp)]
          simp
        · simpa [isIdCandidate, flagId] using hcand
        · simp [flagId]
    · rename_i hcand
      simp only [Bool.not_eq_true] at hcand
      obtain ⟨h1, hex⟩ := ih h
      refine ⟨?_, hex⟩
      rw [List.countP_cons, h1]
      simp [hcand]

/- Elimination form of createEntityFromAst on success. -/

theorem createEntity_ok {ename : Str} {fields : List Field} {ent : Entity}
    (h : createEntityFromAst ename fields = .ok ent) :
    ∃ st, processFields ename ⟨[], none, []⟩ fields = .ok st ∧ st.props ≠ [] ∧
      ((∃ j, st.idIdx = some j ∧ ent = ⟨ename, st.props, some j⟩) ∨
       (st.idIdx = none ∧ ∃ props' j,
         inferIdLoop ename st.props [] none = .ok (props', j) ∧
         ent = ⟨ename, props', some j⟩)) := by
  unfold createEntityFromAst at h
  split at h
  · cases h
  · rename_i st hst
    split at h
    · cases h
    · rename_i hne
      refine ⟨st, hst, by simpa using hne, ?_⟩
      split at h
      · rename_i j hj
        cases h
        exact Or.inl ⟨j, hj, rfl⟩
      · rename_i hj
        split at h
        · cases h
        · rename_i props' j hloop
          cases h
          exact Or.inr ⟨hj, props', j, hloop, rfl⟩

/- The candidate count over built properties equals the candidate count
   over the retained fields. -/

theorem countP_candNT_filterMap (fs : List Field) :
    (fs.filterMap retProj).countP candNT = fs.countP isCandField := by
  induction fs with
  | nil => simp
  | cons f fs ih =>
    rw [List.filterMap_cons]
    cases hr : isRetained f with
    | false =>
      have h1 : retProj f = none := by simp [retProj, hr]
      have h2 : isCandField f = false := by simp [isCandField, hr]
      rw [h1, List.countP_cons, ih, h2]
      simp
    | true =>
      have h1 : retProj f = some (headName f, f.typ) := by simp [retProj, hr]
      have h2 : isCandField f = candNT (headName f, f.typ) := by
        simp [isCandField, hr, candNT]
      rw [h1, List.countP_cons, List.countP_cons, ih, h2]

theorem countP_cand_fields {ename : Str} {fields : List Field} {st : BState}
    (h : processFields ename ⟨[], none, []⟩ fields = .ok st) :
    st.props.countP isIdCandidate = fields.countP isCandField := by
  have hproj := processFields_ok_projs h
  simp only [List.map_nil, List.nil_append] at hproj
  have h1 : st.props.countP isIdCandidate = (st.props.map projNT).countP candNT := by
    rw [List.countP_map]
    rfl
  rw [h1, hproj, countP_candNT_filterMap]

theorem exists_error_of_no_ok {α : Type} {x : Except Str α}
    (h : ∀ a, x = .ok a → False) : ∃ e, x = .error e := by
  cases x with
  | error e => exact ⟨e, rfl⟩
  | ok a => exact absurd rfl (h a)

end ObxGen

namespace ObxGen

/- Walk lemmas for the sticky error. -/

theorem entityLoader_err {b : Binding} {e : Str} (h : b.err = some e) (n : GoNode) :
    entityLoader b n = (b, false) := by
  unfold entityLoader
  simp [h]

theorem walkFold_err {b : Binding} {e : Str} (h : b.err = some e) (ns : List GoNode) :
    walkFold b ns = b := by
  induction ns with
  | nil => rfl
  | cons n ns ih =>
    unfold walkFold
    rw [entityLoader_err h]
    exact ih

theorem walkFold_append (b : Binding) (xs ys : List GoNode) :
    walkFold b (xs ++ ys) = walkFold (walkFold b xs) ys := by
  induction xs generalizing b with
  | nil => rfl
  | cons n xs ih =>
    show walkFold (entityLoader b n).1 (xs ++ ys) =
      walkFold (walkFold (entityLoader b n).1 xs) ys
    exact ih _

/-- C1 (amended): property identifiers are 32-bit values.  For 1 <= id < 2^32,
FbSlot yields id - 1; when the true offset 4 + 2*(id-1) fits in 16 bits,
FbvTableOffset returns it; and the call aborts exactly when the offset
computed in 32-bit arithmetic, (4 + 2*(id-1)) mod 2^32, exceeds 65535 —
identifiers whose offset wraps modulo 2^32 back below 65536 do not abort. -/
theorem C1_amended (propId : Nat) (h1 : 1 ≤ propId) (h2 : propId < 2 ^ 32) :
    FbSlot propId = propId - 1 ∧
    (4 + 2 * (propId - 1) ≤ 65535 →
      FbvTableOffset propId = some (4 + 2 * (propId - 1))) ∧
    (FbvTableOffset propId = none ↔ 65535 < (4 + 2 * (propId - 1)) % 2 ^ 32) := by
  have hslot : FbSlot propId = propId - 1 := by
    unfold FbSlot
    omega
  have hmod : (propId - 1) % 2 ^ 32 = propId - 1 := Nat.mod_eq_of_lt (by omega)
  refine ⟨hslot, ?_, ?_⟩
  · intro hle
    simp only [FbvTableOffset, hslot, hmod]
    have e1 : (4 + 2 * (propId - 1)) % 2 ^ 32 = 4 + 2 * (propId - 1) := by omega
    have e2 : (4 + 2 * (propId - 1)) % 2 ^ 16 = 4 + 2 * (propId - 1) := by omega
    rw [e1, e2]
    simp
  · simp only [FbvTableOffset, hslot, hmod]
    split
    · rename_i hin
      simp only [reduceCtorEq, false_iff, not_lt]
      omega
    · rename_i hin
      simp only [true_iff]
      omega

/-- C1 counterexample: the claim asserts every identifier whose offset
4 + 2*(id-1) exceeds 65535 makes FbvTableOffset abort, but at
id = 2^31 + 1 the 32-bit computation wraps around and the call returns 4
instead of aborting. -/
theorem C1_counterexample :
    65535 < 4 + 2 * (2 ^ 31 + 1 - 1) ∧ FbvTableOffset (2 ^ 31 + 1) = some 4 := by
  constructor
  · norm_num
  · rfl

theorem C1_witness :
    FbSlot 3 = 3 - 1 ∧
    (4 + 2 * (3 - 1) ≤ 65535 → FbvTableOffset 3 = some (4 + 2 * (3 - 1))) ∧
    (FbvTableOffset 3 = none ↔ 65535 < (4 + 2 * (3 - 1)) % 2 ^ 32) :=
  C1_amended 3 (by norm_num) (by norm_num)

/-- C3: for a field whose declared type resolves in the base table, the
date refinement alone succeeds (rewriting the logical type to Date)
exactly when the base logical type is Long and fails otherwise; the link
refinement alone succeeds (rewriting to Relation and attaching the
annotation value as relation target) exactly when the base logical type
is Long and fails otherwise; and a field carrying both date and link
always fails type resolution. -/
theorem C3_thm (ts ob fb : Str) (annos : List (Str × Str))
    (hb : baseType ts = some (ob, fb)) :
    (alookup (str "date") annos ≠ none → alookup (str "link") annos = none →
      (ob = str "Long" → setType ts annos = .ok (str "Date", fb, none)) ∧
      (ob ≠ str "Long" → setType ts annos = .error (invalidDateMsg ob))) ∧
    (∀ tgt, alookup (str "date") annos = none →
      alookup (str "link") annos = some tgt →
      (ob = str "Long" → setType ts annos = .ok (str "Relation", fb, some tgt)) ∧
      (ob ≠ str "Long" → setType ts annos = .error (invalidRelMsg ob))) ∧
    (alookup (str "date") annos ≠ none → alookup (str "link") annos ≠ none →
      ∃ e, setType ts annos = .error e) := by
  refine ⟨?_, ?_, ?_⟩
  · intro hd hl
    obtain ⟨d, hd⟩ := Option.ne_none_iff_exists'.mp hd
    constructor
    · intro hob
      simp [setType, hb, hd, hob, setTypeLink, hl]
    · intro hob
      simp [setType, hb, hd, hob]
  · intro tgt hd hl
    constructor
    · intro hob
      simp [setType, hb, hd, hob, setTypeLink, hl]
    · intro hob
      simp [setType, hb, hd, setTypeLink, hl, hob]
  · intro hd hl
    obtain ⟨d, hd⟩ := Option.ne_none_iff_exists'.mp hd
    obtain ⟨tgt, hl⟩ := Option.ne_none_iff_exists'.mp hl
    by_cases hob : ob = str "Long"
    · refine ⟨invalidRelMsg (str "Date"), ?_⟩
      have hne : ¬((str "Date" : Str) = str "Long") := by decide
      simp only [setType, hb, hd, hob, setTypeLink, hl]
      simp [hne]
    · exact ⟨invalidDateMsg ob, by simp [setType, hb, hd, hob]⟩

theorem C3_witness :
    setType (str "int64") [(str "date", [])] = .ok (str "Date", str "Int64", none) ∧
    setType (str "uint") [(str "link", str "User")] =
      .ok (str "Relation", str "Uint64", some (str "User")) ∧
    (∃ e, setType (str "string") [(str "date", []), (str "link", str "U")] = .error e) :=
  ⟨((C3_thm (str "int64") (str "Long") (str "Int64") [(str "date", [])]
      (by decide)).1 (by decide) (by decide)).1 rfl,
   ((C3_thm (str "uint") (str "Long") (str "Uint64") [(str "link", str "User")]
      (by decide)).2.1 (str "User") (by decide) (by decide)).1 rfl,
   (C3_thm (str "string") (str "String") (str "UOffsetT")
      [(str "date", []), (str "link", str "U")] (by decide)).2.2 (by decide) (by decide)⟩

end ObxGen

namespace ObxGen

/- Reduction of setObFlags when the index annotation is present with a
   recognized (case-folded) value. -/
theorem setObFlags_index_some {annos : List (Str × Str)} {rel : Option Str}
    {v : Str} (hidx : alookup (str "index") annos = some v)
    {sub : List Str} (htab : subFlagTable (toLowerStr v) = some sub) :
    setObFlags annos rel = setObFlagsUnique annos rel
      ((if (alookup (str "id") annos).isSome then [str "ID"] else []) ++
        ([str "INDEXED"] ++ sub)) true := by
  unfold subFlagTable at htab
  split_ifs at htab with e1 e2 e3 e4
  · cases htab
    simp only [setObFlags, hidx]
    rw [if_pos e1]
    rfl
  · cases htab
    simp only [setObFlags, hidx]
    rw [if_neg e1, if_pos e2]
    rfl
  · cases htab
    simp only [setObFlags, hidx]
    rw [if_neg e1, if_neg e2, if_pos e3]
    rfl
  · cases htab
    simp only [setObFlags, hidx]
    rw [if_neg e1, if_neg e2, if_neg e3, if_pos e4]
    rfl

/-- C4 (amended): for a property whose index annotation, if present,
carries a recognized (case-folded) value, exactly one of the conditions
(index annotation present, unique annotation present, non-null Relation)
yields a successful flag derivation with an Index record allocated, and
two or more of them make flag derivation fail with the
index-is-already-defined error. -/
theorem C4_amended (annos : List (Str × Str)) (rel : Option Str)
    (hval : ∀ v, alookup (str "index") annos = some v →
      (subFlagTable (toLowerStr v)).isSome = true) :
    (condCount annos rel = 1 → ∃ flags, setObFlags annos rel = .ok (flags, true)) ∧
    (2 ≤ condCount annos rel → setObFlags annos rel = .error indexDefinedMsg) := by
  constructor
  · intro h1
    rcases hidx : alookup (str "index") annos with _ | v
    · rcases huniq : alookup (str "unique") annos with _ | u
      · rcases hrel : rel with _ | r
        · simp [condCount, hidx, huniq, hrel] at h1
        · refine ⟨if (alookup (str "id") annos).isSome then [str "ID"] else [], ?_⟩
          simp [setObFlags, hidx, setObFlagsUnique, huniq, setObFlagsRel]
      · rcases hrel : rel with _ | r
        · refine ⟨(if (alookup (str "id") annos).isSome then [str "ID"] else []) ++
            [str "UNIQUE"], ?_⟩
          simp [setObFlags, hidx, setObFlagsUnique, huniq, setObFlagsRel]
        · simp [condCount, hidx, huniq, hrel] at h1
    · have htab := hval v hidx
      rcases htab2 : subFlagTable (toLowerStr v) with _ | sub
      · rw [htab2] at htab
        exact absurd htab (by simp)
      · have hred := @setObFlags_index_some annos rel v hidx sub htab2
        rcases huniq : alookup (str "unique") annos with _ | u
        · rcases hrel : rel with _ | r
          · subst hrel
            refine ⟨(if (alookup (str "id") annos).isSome then [str "ID"] else []) ++
              ([str "INDEXED"] ++ sub), ?_⟩
            rw [hred]
            simp [setObFlagsUnique, huniq, setObFlagsRel]
          · simp [condCount, hidx, huniq, hrel] at h1
        · exfalso
          rcases rel with _ | r <;> simp [condCount, hidx, huniq] at h1
  · intro h2
    rcases hidx : alookup (str "index") annos with _ | v
    · rcases huniq : alookup (str "unique") annos with _ | u
      · rcases hrel : rel with _ | r <;> simp [condCount, hidx, huniq, hrel] at h2
      · rcases hrel : rel with _ | r
        · simp [condCount, hidx, huniq, hrel] at h2
        · simp [setObFlags, hidx, setObFlagsUnique, huniq, setObFlagsRel]
    · have htab := hval v hidx
      rcases htab2 : subFlagTable (toLowerStr v) with _ | sub
      · rw [htab2] at htab
        exact absurd htab (by simp)
      · have hred := @setObFlags_index_some annos rel v hidx sub htab2
        rcases huniq : alookup (str "unique") annos with _ | u
        · rcases hrel : rel with _ | r
          · simp [condCount, hidx, huniq, hrel] at h2
          · subst hrel
            rw [hred]
            simp [setObFlagsUnique, huniq, setObFlagsRel]
        · rw [hred]
          simp [setObFlagsUnique, huniq]

/-- C4 counterexample: the claim asserts that the index annotation being
the only one of the three conditions present yields a successful flag
derivation, but with the unrecognized value bogus the derivation fails. -/
theorem C4_counterexample :
    condCount [(str "index", str "bogus")] none = 1 ∧
    setObFlags [(str "index", str "bogus")] none =
      .error (unknownIndexMsg (str "bogus")) := by
  constructor
  · decide
  · rfl

theorem C4_witness :
    (∃ flags, setObFlags [(str "unique", [])] none = .ok (flags, true)) ∧
    setObFlags [(str "unique", [])] (some (str "T")) = .error indexDefinedMsg := by
  have hv1 : ∀ v, alookup (str "index") [(str "unique", ([] : Str))] = some v →
      (subFlagTable (toLowerStr v)).isSome = true := by
    intro v hv
    rw [show alookup (str "index") [(str "unique", ([] : Str))] = none from rfl] at hv
    exact Option.noConfusion hv
  exact ⟨(C4_amended [(str "unique", [])] none hv1).1 (by decide),
    (C4_amended [(str "unique", [])] (some (str "T")) hv1).2 (by decide)⟩

/-- C5 (amended): for a property with an index annotation, the sub-flag is
chosen from the case-folded annotation value: empty adds no sub-flag,
value/hash/hash64 add INDEX_VALUE/INDEX_HASH/INDEX_HASH64, and a value
whose case-folded form is none of these makes flag derivation fail with
the unknown-index-type error naming the original value; in the
recognized cases (with no other flag source present) derivation succeeds
with INDEXED followed by the sub-flag. -/
theorem C5_amended (annos : List (Str × Str)) (rel : Option Str) (v : Str)
    (h : alookup (str "index") annos = some v) :
    (subFlagTable (toLowerStr v) = none →
      setObFlags annos rel = .error (unknownIndexMsg v)) ∧
    (∀ sub, subFlagTable (toLowerStr v) = some sub →
      alookup (str "id") annos = none → alookup (str "unique") annos = none →
      rel = none →
      setObFlags annos rel = .ok ([str "INDEXED"] ++ sub, true)) := by
  constructor
  · intro htab
    unfold subFlagTable at htab
    split_ifs at htab with e1 e2 e3 e4
    simp [setObFlags, h, e1, e2, e3, e4]
  · intro sub htab hid huniq hrel
    subst hrel
    have hred := @setObFlags_index_some annos none v h sub htab
    rw [hred, hid]
    simp [setObFlagsUnique, huniq, setObFlagsRel]

/-- C5 counterexample: the claim asserts any index value other than the
four literals fails, but the value HASH differs from all four and flag
derivation succeeds (the code compares the lowercased value). -/
theorem C5_counterexample :
    ¬(str "HASH" = ([] : Str)) ∧ ¬(str "HASH" = str "value") ∧
    ¬(str "HASH" = str "hash") ∧ ¬(str "HASH" = str "hash64") ∧
    setObFlags [(str "index", str "HASH")] none =
      .ok ([str "INDEXED", str "INDEX_HASH"], true) := by
  refine ⟨by decide, by decide, by decide, by decide, rfl⟩

theorem C5_witness :
    setObFlags [(str "index", str "bogus")] none =
      .error (unknownIndexMsg (str "bogus")) ∧
    setObFlags [(str "index", str "hash64")] none =
      .ok ([str "INDEXED"] ++ [str "INDEX_HASH64"], true) :=
  ⟨(C5_amended [(str "index", str "bogus")] none (str "bogus") (by decide)).1 (by decide),
   (C5_amended [(str "index", str "hash64")] none (str "hash64") (by decide)).2
     [str "INDEX_HASH64"] (by decide) (by decide) (by decide) rfl⟩

/-- C8: once the sticky error is set after some prefix of the walk, every
further callback invocation returns the binding unchanged and halts
descent, the rest of the walk is a no-op (so the first error is the sole
error surfaced by createFromAst), and the entities appended before the
error remain in the list.  The walk driver itself is modelled from the
spec as a fold of entityLoader over the visited node sequence. -/
theorem C8_thm (b : Binding) (ns₁ ns₂ : List GoNode) (e : Str)
    (h : (walkFold b ns₁).err = some e) :
    (∀ n, entityLoader (walkFold b ns₁) n = (walkFold b ns₁, false)) ∧
    walkFold b (ns₁ ++ ns₂) = walkFold b ns₁ ∧
    (walkFold b (ns₁ ++ ns₂)).Entities = (walkFold b ns₁).Entities ∧
    (∀ pkg, b = ⟨pkg, [], [], none⟩ →
      createFromAst pkg (ns₁ ++ ns₂) = .error e) := by
  have h2 : walkFold b (ns₁ ++ ns₂) = walkFold b ns₁ := by
    rw [walkFold_append, walkFold_err h]
  refine ⟨entityLoader_err h, h2, by rw [h2], ?_⟩
  intro pkg hb
  subst hb
  simp only [createFromAst]
  rw [h2, h]

theorem C8_witness :
    entityLoader (walkFold ⟨str "p", [], [], none⟩ [GoNode.structType []])
        GoNode.file =
      (walkFold ⟨str "p", [], [], none⟩ [GoNode.structType []], false) ∧
    walkFold ⟨str "p", [], [], none⟩
        ([GoNode.structType []] ++ [GoNode.typeSpec (str "T")]) =
      walkFold ⟨str "p", [], [], none⟩ [GoNode.structType []] ∧
    createFromAst (str "p") ([GoNode.structType []] ++ [GoNode.typeSpec (str "T")]) =
      .error structNoNameMsg := by
  have h := C8_thm ⟨str "p", [], [], none⟩ [GoNode.structType []]
    [GoNode.typeSpec (str "T")] structNoNameMsg rfl
  exact ⟨h.1 GoNode.file, h.2.1, h.2.2.2 (str "p") rfl⟩

end ObxGen

namespace ObxGen

/-- C2 (amended): only retained fields (tag parses, not transient) count
for the explicit-id rule: two such id-annotated fields make every build
fail (the error names both fields when the second one is reached); and
when no retained field carries the id annotation, a successful build has
exactly one inference candidate (declared name case-insensitively id,
declared type uint64 among retained fields) which becomes the identity
property and gains the ID flag — so with zero or several candidates and
no explicit id annotation the build always fails. -/
theorem C2_amended (ename : Str) (fs : List Field) :
    (2 ≤ fs.countP isExplicitId →
      ∃ e, createEntityFromAst ename fs = .error e) ∧
    (fs.countP isExplicitId = 0 →
      ∀ ent, createEntityFromAst ename fs = .ok ent →
        fs.countP isCandField = 1 ∧
        ∃ j p, ent.IdProperty = some j ∧ ent.Properties[j]? = some p ∧
          isIdCandidate p = true ∧ (str "ID") ∈ p.ObFlags) := by
  constructor
  · intro h2
    apply exists_error_of_no_ok
    intro ent hok
    obtain ⟨st, hst, -, -⟩ := createEntity_ok hok
    have hcnt := processFields_ok_idcount hst
    have hle := countIf_le_one st.idIdx
    simp only [countIf] at hcnt hle
    omega
  · intro h0 ent hok
    obtain ⟨st, hst, -, hcases⟩ := createEntity_ok hok
    have hcnt := processFields_ok_idcount hst
    rw [h0] at hcnt
    simp only [countIf] at hcnt
    have hnone : st.idIdx = none := by
      cases hi : st.idIdx
      · rfl
      · rw [hi] at hcnt
        simp [countIf] at hcnt
    rcases hcases with ⟨j, hj, -⟩ | ⟨-, props', j, hloop, hent⟩
    · rw [hnone] at hj
      cases hj
    · obtain ⟨hone, p, hp, hcand, hflag⟩ := inferIdLoop_none hloop
      have hcf := countP_cand_fields hst
      subst hent
      exact ⟨by rw [← hcf, hone], j, p, rfl, hp, hcand, hflag⟩

/-- C2 counterexample: an entity whose fields both carry the id
annotation but where one of them is also transient builds successfully,
refuting the claim that two id-annotated fields always fail. -/
theorem C2_counterexample :
    2 ≤ List.countP carriesId
        [⟨[str "A"], some (str "id transient"), str "badtype"⟩,
         (⟨[str "B"], some (str "id"), str "uint64"⟩ : Field)] ∧
    isOkE (createEntityFromAst (str "E")
        [⟨[str "A"], some (str "id transient"), str "badtype"⟩,
         ⟨[str "B"], some (str "id"), str "uint64"⟩]) = true := by
  exact ⟨by decide, rfl⟩

theorem C2_witness :
    (∃ e, createEntityFromAst (str "E")
        [⟨[str "A"], some (str "id"), str "uint64"⟩,
         ⟨[str "B"], some (str "id"), str "uint64"⟩] = .error e) ∧
    List.countP isCandField [(⟨[str "Id"], none, str "uint64"⟩ : Field)] = 1 := by
  refine ⟨(C2_amended (str "E") _).1 (by decide), ?_⟩
  have h := (C2_amended (str "E") [⟨[str "Id"], none, str "uint64"⟩]).2 (by decide)
    ⟨str "E",
      [⟨str "Id", str "Id", [], str "Long", [str "ID"], str "uint64", str "Uint64",
        none, false⟩], some 0⟩ rfl
  exact h.1

/-- C7 (amended): an entity containing two retained fields whose storage
names (nameindb value if present, else the declared name) agree after
case folding always fails to build, in either declaration order; the
reported error is the duplicate-name error when no earlier per-field
error preempts the duplicate check. -/
theorem C7_amended :
    (∀ (ename : Str) (l₁ l₂ l₃ : List Field) (f g : Field) (n : Str),
      storageKey f = some n → storageKey g = some n →
      ∃ e, createEntityFromAst ename (l₁ ++ f :: (l₂ ++ g :: l₃)) = .error e) ∧
    createEntityFromAst (str "E")
      [⟨[str "Id"], none, str "uint64"⟩, ⟨[str "Name"], none, str "string"⟩,
       ⟨[str "nAmE"], none, str "string"⟩] =
      .error (propErr dupNameMsg (str "nAmE") (str "E")) := by
  constructor
  · intro ename l₁ l₂ l₃ f g n hf hg
    apply exists_error_of_no_ok
    intro ent hok
    obtain ⟨st, hst, -, -⟩ := createEntity_ok hok
    have hnames := processFields_ok_names hst
    have hnd := processFields_ok_nodup hst (by simp)
    rw [hnames] at hnd
    simp only [List.nil_append] at hnd
    have hsub : List.Sublist [n, n] ((l₁ ++ f :: (l₂ ++ g :: l₃)).filterMap storageKey) := by
      rw [List.filterMap_append, List.filterMap_cons, hf, List.filterMap_append,
        List.filterMap_cons, hg]
      refine List.Sublist.trans ?_ (List.sublist_append_right _ _)
      refine List.Sublist.cons₂ n ?_
      refine List.Sublist.trans ?_ (List.sublist_append_right _ _)
      exact List.singleton_sublist.mpr (by simp)
    have := List.Nodup.sublist hsub hnd
    simp at this
  · rfl

theorem C7_witness :
    ∃ e, createEntityFromAst (str "E")
        [⟨[str "a"], none, str "string"⟩, ⟨[str "A"], none, str "int"⟩,
         ⟨[str "Id"], none, str "uint64"⟩] = .error e :=
  C7_amended.1 (str "E") [] [] [⟨[str "Id"], none, str "uint64"⟩]
    ⟨[str "a"], none, str "string"⟩ ⟨[str "A"], none, str "int"⟩
    (str "a") rfl rfl

/-- C7 counterexample: the claim says an entity with two case-colliding
storage names fails with the duplicate-name error; here the two string
fields Name and name collide, yet the build fails with the unknown-type
error of the second of them, which is reached first. -/
theorem C7_counterexample :
    storageKey ⟨[str "Name"], none, str "string"⟩ =
      storageKey ⟨[str "name"], none, str "badtype"⟩ ∧
    createEntityFromAst (str "E")
      [⟨[str "Id"], none, str "uint64"⟩, ⟨[str "Name"], none, str "string"⟩,
       ⟨[str "name"], none, str "badtype"⟩] =
      .error (propErr (unknownTypeMsg (str "badtype")) (str "name") (str "E")) ∧
    propErr (unknownTypeMsg (str "badtype")) (str "name") (str "E") ≠
      propErr dupNameMsg (str "name") (str "E") ∧
    propErr (unknownTypeMsg (str "badtype")) (str "name") (str "E") ≠
      propErr dupNameMsg (str "Name") (str "E") := by
  exact ⟨rfl, rfl, by decide, by decide⟩

/-- C9: the raw tag of every field is parsed before the transient check,
so a field whose tag fails annotation parsing fails the whole build even
if it would have been dropped as transient; and for a transient field
the declared type expression is never examined — replacing it by any
other type text (recognized or not) leaves the build outcome unchanged. -/
theorem C9_thm (ename : Str) (l₁ l₂ : List Field) (f : Field) :
    ((∃ msg, fieldAnnos f = .error msg) →
      ∃ e, createEntityFromAst ename (l₁ ++ f :: l₂) = .error e) ∧
    (∀ a, fieldAnnos f = .ok a → (alookup (str "transient") a).isSome = true →
      f.names.length = 1 → ∀ t,
      createEntityFromAst ename (l₁ ++ f :: l₂) =
        createEntityFromAst ename (l₁ ++ {f with typ := t} :: l₂)) := by
  constructor
  · rintro ⟨msg, hmsg⟩
    apply exists_error_of_no_ok
    intro ent hok
    obtain ⟨st, hst, -, -⟩ := createEntity_ok hok
    obtain ⟨a, ha⟩ := processFields_ok_allparse hst f (by simp)
    rw [hmsg] at ha
    cases ha
  · intro a ha htr hlen t
    have hskip : ∀ st, processField ename st f = .ok st := by
      intro st
      unfold processField
      rw [if_neg (by omega)]
      rw [ha]
      simp [htr]
    have hskip' : ∀ st, processField ename st {f with typ := t} = .ok st := by
      intro st
      unfold processField
      have hlen' : ¬(({f with typ := t} : Field).names.length ≠ 1) := by
        simp [hlen]
      have ha' : fieldAnnos {f with typ := t} = .ok a := ha
      rw [if_neg hlen', ha']
      simp [htr]
    have hpf : processFields ename ⟨[], none, []⟩ (l₁ ++ f :: l₂) =
        processFields ename ⟨[], none, []⟩ (l₁ ++ {f with typ := t} :: l₂) := by
      rw [processFields_append, processFields_append]
      cases processFields ename ⟨[], none, []⟩ l₁ with
      | error e => rfl
      | ok st₁ =>
        show processFields ename st₁ (f :: l₂) =
          processFields ename st₁ ({f with typ := t} :: l₂)
        unfold processFields
        rw [hskip st₁, hskip' st₁]
    unfold createEntityFromAst
    rw [hpf]

theorem C9_witness :
    (∃ e, createEntityFromAst (str "E")
        [⟨[str "A"], some (str "id id"), str "uint64"⟩,
         ⟨[str "Id"], none, str "uint64"⟩] = .error e) ∧
    createEntityFromAst (str "E")
        [⟨[str "Id"], none, str "uint64"⟩,
         ⟨[str "X"], some (str "transient"), str "badtype"⟩] =
      createEntityFromAst (str "E")
        [⟨[str "Id"], none, str "uint64"⟩,
         ⟨[str "X"], some (str "transient"), str "string"⟩] := by
  constructor
  · exact (C9_thm (str "E") [] [⟨[str "Id"], none, str "uint64"⟩]
      ⟨[str "A"], some (str "id id"), str "uint64"⟩).1
      ⟨str "duplicate annotation " ++ str "id", rfl⟩
  · exact (C9_thm (str "E") [⟨[str "Id"], none, str "uint64"⟩] []
      ⟨[str "X"], some (str "transient"), str "badtype"⟩).2
      [(str "transient", [])] rfl rfl rfl (str "string")

end ObxGen

namespace ObxGen

/- Annotation-parser lemmas. -/

theorem trimSpace_all_space {l : Str} (h : ∀ c ∈ l, isSpaceGo c = true) :
    trimSpace l = [] := by
  unfold trimSpace
  rw [List.dropWhile_eq_nil_iff.mpr h]
  rfl

theorem stripDelims_eq_self {l : Str}
    (h : ∀ c, l.head? = some c → ¬(c = backquote ∨ c = '"')) :
    stripDelims l = l := by
  unfold stripDelims
  rw [if_neg]
  rintro ⟨-, -, h3 | h3⟩
  · exact (h backquote h3) (Or.inl rfl)
  · exact (h '"' h3) (Or.inr rfl)

theorem splitSpaceAux_no_space {l : Str} (h : ∀ c ∈ l, c ≠ ' ') (acc : Str) :
    splitSpaceAux l acc = [acc.reverse ++ l] := by
  induction l generalizing acc with
  | nil => simp [splitSpaceAux]
  | cons c cs ih =>
    unfold splitSpaceAux
    rw [if_neg (h c (by simp))]
    rw [ih (fun x hx => h x (by simp [hx])) (c :: acc)]
    simp

theorem splitSpaceAux_break {p : Str} (hp : ∀ c ∈ p, c ≠ ' ') (rest acc : Str) :
    splitSpaceAux (p ++ ' ' :: rest) acc =
      (acc.reverse ++ p) :: splitSpaceAux rest [] := by
  induction p generalizing acc with
  | nil =>
    simp only [List.nil_append, List.append_nil]
    rw [show splitSpaceAux (' ' :: rest) acc =
        if (' ' : Char) = ' ' then acc.reverse :: splitSpaceAux rest []
        else splitSpaceAux rest (' ' :: acc) from rfl]
    rw [if_pos rfl]
  | cons c cs ih =>
    show splitSpaceAux (c :: (cs ++ ' ' :: rest)) acc = _
    rw [show splitSpaceAux (c :: (cs ++ ' ' :: rest)) acc =
        if c = ' ' then acc.reverse :: splitSpaceAux (cs ++ ' ' :: rest) []
        else splitSpaceAux (cs ++ ' ' :: rest) (c :: acc) from rfl]
    rw [if_neg (hp c (by simp))]
    rw [ih (fun x hx => hp x (by simp [hx])) (c :: acc)]
    simp

theorem splitSpace_parts (parts : List Str) (hne : parts ≠ [])
    (h : ∀ p ∈ parts, ∀ c ∈ p, c ≠ ' ') :
    splitSpace (joinSp parts) = parts := by
  induction parts with
  | nil => cases hne rfl
  | cons p ps ih =>
    cases ps with
    | nil =>
      show splitSpace (joinSp [p]) = [p]
      unfold joinSp splitSpace
      rw [splitSpaceAux_no_space (h p (by simp))]
      simp
    | cons q qs =>
      show splitSpace (joinSp (p :: q :: qs)) = p :: q :: qs
      unfold splitSpace
      have hj : joinSp (p :: q :: qs) = p ++ ' ' :: joinSp (q :: qs) := rfl
      rw [hj, splitSpaceAux_break (h p (by simp))]
      simp only [List.reverse_nil, List.nil_append]
      congr 1
      exact ih (by simp) (fun x hx => h x (by simp [hx]))

theorem splitColon_no_colon {l : Str} (h : ∀ c ∈ l, c ≠ ':') :
    splitColon l = none := by
  induction l with
  | nil => rfl
  | cons c cs ih =>
    unfold splitColon
    rw [if_neg (h c (by simp)), ih (fun x hx => h x (by simp [hx]))]

theorem splitColon_break {n : Str} (h : ∀ c ∈ n, c ≠ ':') (r : Str) :
    splitColon (n ++ ':' :: r) = some (n, r) := by
  induction n with
  | nil => simp [splitColon]
  | cons c cs ih =>
    show splitColon (c :: (cs ++ ':' :: r)) = _
    unfold splitColon
    rw [if_neg (h c (by simp)), ih (fun x hx => h x (by simp [hx]))]

theorem parseToken_bare {n : Str} (h : ∀ c ∈ n, c ≠ ':') :
    parseToken n = .ok (toLowerStr n, []) := by
  unfold parseToken
  rw [splitColon_no_colon h]

theorem parseToken_kv {n : Str} (h : ∀ c ∈ n, c ≠ ':') (v : Str) :
    parseToken (n ++ ':' :: ('"' :: (v ++ ['"']))) =
      .ok (toLowerStr n, trimSpace v) := by
  have hlast : ('"' :: (v ++ ['"'])).getLast? = some '"' := by
    rw [show ('"' :: (v ++ ['"'])) = ('"' :: v) ++ ['"'] by simp]
    exact List.getLast?_concat _
  simp only [parseToken, splitColon_break h]
  rw [if_pos ⟨by simp only [List.length_cons, List.length_append]; omega, rfl, hlast⟩]
  rw [show ('"' :: (v ++ ['"'])).tail = v ++ ['"'] from rfl, List.dropLast_concat]

theorem wfName_props {n : Str} (h : wfName n = true) :
    n ≠ [] ∧ ∀ c ∈ n, c ≠ ' ' ∧ c ≠ ':' ∧ c ≠ '"' ∧ c ≠ backquote := by
  unfold wfName at h
  rw [Bool.and_eq_true] at h
  obtain ⟨h1, h2⟩ := h
  refine ⟨by simpa using h1, ?_⟩
  intro c hc
  have hx := List.all_eq_true.mp h2 c hc
  simp at hx
  tauto

theorem renderTok_ne_nil {t : Tok} (h : wfTok t = true) : renderTok t ≠ [] := by
  cases t with
  | bare n =>
    exact (wfName_props (by simpa [wfTok] using h)).1
  | kv n v =>
    simp [renderTok]

theorem renderTok_no_space {t : Tok} (h : wfTok t = true) :
    ∀ c ∈ renderTok t, c ≠ ' ' := by
  cases t with
  | bare n =>
    intro c hc
    exact ((wfName_props (by simpa [wfTok] using h)).2 c hc).1
  | kv n v =>
    rw [wfTok, Bool.and_eq_true] at h
    obtain ⟨h1, h2⟩ := h
    intro c hc
    simp only [renderTok, List.mem_append, List.mem_cons] at hc
    rcases hc with hn | hc2
    · exact ((wfName_props h1).2 c hn).1
    rcases hc2 with rfl | hc3
    · decide
    rcases hc3 with rfl | hc4
    · decide
    rcases hc4 with hv | hc5
    · have := List.all_eq_true.mp h2 c hv
      simpa using this
    rcases hc5 with rfl | hc6
    · decide
    · exact absurd hc6 (List.not_mem_nil c)

theorem renderTok_head {t : Tok} (h : wfTok t = true) :
    ∀ c, (renderTok t).head? = some c → ¬(c = backquote ∨ c = '"') := by
  cases t with
  | bare n =>
    intro c hc
    have hp := wfName_props (by simpa [wfTok] using h)
    have hm : c ∈ n := by
      cases n with
      | nil => cases hc
      | cons d ds =>
        cases hc
        simp
    have := hp.2 c hm
    tauto
  | kv n v =>
    intro c hc
    rw [wfTok, Bool.and_eq_true] at h
    have hp := wfName_props h.1
    have hm : c ∈ n := by
      obtain ⟨d, ds, rfl⟩ : ∃ d ds, n = d :: ds := by
        cases hn : n with
        | nil => exact absurd hn hp.1
        | cons d ds => exact ⟨d, ds, rfl⟩
      cases hc
      simp
    have := hp.2 c hm
    tauto

theorem tokEntry_key (t : Tok) : (tokEntry t).1 = toLowerStr (tokName t) := by
  cases t <;> rfl

theorem parseToken_render {t : Tok} (h : wfTok t = true) :
    parseToken (renderTok t) = .ok (tokEntry t) := by
  cases t with
  | bare n =>
    exact parseToken_bare
      (fun c hc => ((wfName_props (by simpa [wfTok] using h)).2 c hc).2.1)
  | kv n v =>
    rw [wfTok, Bool.and_eq_true] at h
    show parseToken (n ++ ':' :: ('"' :: (v ++ ['"']))) = .ok (toLowerStr n, trimSpace v)
    exact parseToken_kv (fun c hc => ((wfName_props h.1).2 c hc).2.1) v

theorem alookup_eq_none {k : Str} {l : List (Str × Str)} :
    alookup k l = none ↔ ∀ e ∈ l, e.1 ≠ k := by
  induction l with
  | nil => simp [alookup]
  | cons e rest ih =>
    obtain ⟨a, v⟩ := e
    unfold alookup
    by_cases hak : a = k
    · simp [hak]
    · simp [hak, ih]

theorem alookup_append (k : Str) (l₁ l₂ : List (Str × Str)) :
    alookup k (l₁ ++ l₂) =
      match alookup k l₁ with
      | some v => some v
      | none => alookup k l₂ := by
  induction l₁ with
  | nil => rfl
  | cons e rest ih =>
    obtain ⟨a, v⟩ := e
    show (if a = k then some v else alookup k (rest ++ l₂)) =
      match (if a = k then some v else alookup k rest) with
      | some v => some v
      | none => alookup k l₂
    by_cases hak : a = k
    · rw [if_pos hak, if_pos hak]
    · rw [if_neg hak, if_neg hak, ih]

theorem addAnnos_map (toks : List Tok) :
    ∀ acc, (∀ t ∈ toks, wfTok t = true) →
    ((toks.map fun t => toLowerStr (tokName t)).Nodup) →
    (∀ t ∈ toks, alookup (toLowerStr (tokName t)) acc = none) →
    addAnnos (toks.map renderTok) acc = .ok (acc ++ toks.map tokEntry) := by
  induction toks with
  | nil =>
    intro acc _ _ _
    simp [addAnnos]
  | cons t ts ih =>
    intro acc hwf hnd hdisj
    obtain ⟨k, v, hkv⟩ : ∃ k v, tokEntry t = (k, v) :=
      ⟨(tokEntry t).1, (tokEntry t).2, rfl⟩
    have hk : k = toLowerStr (tokName t) := by
      rw [← tokEntry_key t, hkv]
    have hnone : alookup k acc = none := by
      rw [hk]
      exact hdisj t (by simp)
    show addAnnos (renderTok t :: ts.map renderTok) acc = _
    unfold addAnnos
    rw [if_neg (renderTok_ne_nil (hwf t (by simp)))]
    rw [parseToken_render (hwf t (by simp)), hkv]
    show (if (alookup k acc).isSome then
            Except.error (str "duplicate annotation " ++ k)
          else addAnnos (ts.map renderTok) (acc ++ [(k, v)])) = _
    rw [if_neg (by simp [hnone])]
    rw [ih (acc ++ [(k, v)]) (fun x hx => hwf x (by simp [hx]))
      (by simpa using (List.nodup_cons.mp (by simpa using hnd)).2) ?hdisj2]
    · rw [← hkv]
      simp
    case hdisj2 =>
      intro t' ht'
      rw [alookup_append, hdisj t' (by simp [ht'])]
      have hne : k ≠ toLowerStr (tokName t') := by
        rw [hk]
        intro hcon
        have hmem : toLowerStr (tokName t) ∈ ts.map fun x => toLowerStr (tokName x) := by
          rw [hcon]
          exact List.mem_map_of_mem _ ht'
        exact (List.nodup_cons.mp (by simpa using hnd)).1 hmem
      show alookup (toLowerStr (tokName t')) [(k, v)] = none
      unfold alookup
      rw [if_neg hne]
      rfl

theorem joinSp_head {p : Str} (hp : p ≠ []) (ps : List Str) :
    (joinSp (p :: ps)).head? = p.head? := by
  cases ps with
  | nil => rfl
  | cons q qs =>
    show (p ++ ' ' :: joinSp (q :: qs)).head? = p.head?
    cases p with
    | nil => cases hp rfl
    | cons c cs => rfl

end ObxGen

namespace ObxGen

/-- C6: for every tag made of space-separated well-formed tokens (bare
name or name colon quoted value, names nonempty and free of spaces,
colons, quotes and backquotes, values free of spaces) with no
case-insensitively duplicate names, annotation parsing succeeds and
returns exactly one entry per token, keyed by the case-folded name, with
the value stripped of its surrounding quotes and trimmed of whitespace,
and bare tokens mapped to the empty value. -/
theorem C6_thm (toks : List Tok) (hwf : ∀ t ∈ toks, wfTok t = true)
    (hnd : (toks.map fun t => toLowerStr (tokName t)).Nodup) :
    setAnnotations (joinSp (toks.map renderTok)) = .ok (toks.map tokEntry) := by
  cases toks with
  | nil => rfl
  | cons t ts =>
    have hwfh := hwf t (by simp)
    have hne : renderTok t ≠ [] := renderTok_ne_nil hwfh
    have hjh : (joinSp ((t :: ts).map renderTok)).head? = (renderTok t).head? :=
      joinSp_head hne (ts.map renderTok)
    have hjoinne : joinSp ((t :: ts).map renderTok) ≠ [] := by
      intro hcon
      rw [hcon] at hjh
      cases hrt : renderTok t with
      | nil => exact hne hrt
      | cons c cs =>
        rw [hrt] at hjh
        cases hjh
    have hstrip : stripDelims (joinSp ((t :: ts).map renderTok)) =
        joinSp ((t :: ts).map renderTok) := by
      apply stripDelims_eq_self
      intro c hc
      apply renderTok_head hwfh c
      rw [← hjh]
      exact hc
    have hnos : ∀ p ∈ (t :: ts).map renderTok, ∀ c ∈ p, c ≠ ' ' := by
      intro p hp
      obtain ⟨t', ht', rfl⟩ := List.mem_map.mp hp
      exact renderTok_no_space (hwf t' ht')
    simp only [setAnnotations]
    rw [hstrip, if_neg hjoinne,
      splitSpace_parts ((t :: ts).map renderTok) (by simp) hnos,
      addAnnos_map (t :: ts) [] hwf hnd (fun t' ht' => rfl)]
    simp

theorem C6_witness :
    setAnnotations (joinSp ([Tok.bare (str "id"),
        Tok.kv (str "nameInDb") (str "\tcustom\t")].map renderTok)) =
      .ok ([Tok.bare (str "id"),
        Tok.kv (str "nameInDb") (str "\tcustom\t")].map tokEntry) :=
  C6_thm [Tok.bare (str "id"), Tok.kv (str "nameInDb") (str "\tcustom\t")]
    (by decide) (by decide)

/-- C10 (amended): a nameindb value made only of non-space whitespace
(tabs and the like) is trimmed to the empty value by the annotation
parser, and a retained (non-transient) field whose parsed nameindb value
is empty makes the build fail — when its other checks pass, with the
same empty-nameindb error as a literally empty value; a value containing
the space character instead breaks tokenization and fails parsing with
the annotation-format error. -/
theorem C10_amended :
    (∀ ws : Str, (∀ c ∈ ws, isSpaceGo c = true ∧ c ≠ ' ') →
      setAnnotations (renderTok (Tok.kv (str "nameindb") ws)) =
        .ok [(str "nameindb", [])]) ∧
    (∀ (ename : Str) (fs : List Field) (f : Field) (a : List (Str × Str)),
      f ∈ fs → fieldAnnos f = .ok a →
      (alookup (str "transient") a).isNone = true →
      alookup (str "nameindb") a = some [] →
      ∃ e, createEntityFromAst ename fs = .error e) ∧
    createEntityFromAst (str "E")
        [⟨[str "Id"], none, str "uint64"⟩,
         ⟨[str "X"], some (str "nameindb:\"\t\""), str "string"⟩] =
      createEntityFromAst (str "E")
        [⟨[str "Id"], none, str "uint64"⟩,
         ⟨[str "X"], some (str "nameindb:\"\""), str "string"⟩] := by
  refine ⟨?_, ?_, rfl⟩
  · intro ws hws
    have hwft : wfTok (Tok.kv (str "nameindb") ws) = true := by
      rw [show wfTok (Tok.kv (str "nameindb") ws) =
          (wfName (str "nameindb") && ws.all fun c => !(c = ' ')) from rfl]
      rw [show wfName (str "nameindb") = true from by decide]
      rw [Bool.true_and, List.all_eq_true]
      intro c hc
      simpa using (hws c hc).2
    have htrim : trimSpace ws = [] :=
      trimSpace_all_space (fun c hc => (hws c hc).1)
    have hne := renderTok_ne_nil hwft
    have hstrip : stripDelims (renderTok (Tok.kv (str "nameindb") ws)) =
        renderTok (Tok.kv (str "nameindb") ws) := by
      apply stripDelims_eq_self
      intro c hc
      apply renderTok_head hwft c hc
    have hnos : ∀ p ∈ [renderTok (Tok.kv (str "nameindb") ws)], ∀ c ∈ p, c ≠ ' ' := by
      intro p hp
      rcases List.mem_singleton.mp hp with rfl
      exact renderTok_no_space hwft
    have hjoin : joinSp ([Tok.kv (str "nameindb") ws].map renderTok) =
        renderTok (Tok.kv (str "nameindb") ws) := rfl
    simp only [setAnnotations]
    rw [hstrip, if_neg hne,
      show renderTok (Tok.kv (str "nameindb") ws) =
        joinSp ([Tok.kv (str "nameindb") ws].map renderTok) from rfl,
      splitSpace_parts _ (by simp) (by simpa using hnos),
      addAnnos_map [Tok.kv (str "nameindb") ws] [] (by simpa using hwft)
        (by simp) (fun t' ht' => rfl)]
    rw [show ([Tok.kv (str "nameindb") ws].map tokEntry) =
        [(toLowerStr (str "nameindb"), trimSpace ws)] from rfl]
    rw [htrim, show toLowerStr (str "nameindb") = str "nameindb" from by decide]
    rfl
  · intro ename fs f a hf ha htr hn
    apply exists_error_of_no_ok
    intro ent hok
    obtain ⟨st, hst, -, -⟩ := createEntity_ok hok
    exact processFields_ok_nameindb hst f hf a ha htr hn

/-- C10 counterexample: with the whitespace being a space character the
annotation parser does not trim the value to empty; tokenization splits
at the space and the build fails with the annotation-format error, not
the empty-nameindb error the claim requires. -/
theorem C10_counterexample :
    createEntityFromAst (str "E")
        [⟨[str "Id"], none, str "uint64"⟩,
         ⟨[str "X"], some (str "nameindb:\" \""), str "string"⟩] =
      .error (propErr (str "invalid annotation value \" for nameindb, expecting name:\"value\" format")
        (str "X") (str "E")) ∧
    propErr (str "invalid annotation value \" for nameindb, expecting name:\"value\" format")
        (str "X") (str "E") ≠
      propErr emptyNameInDbMsg (str "X") (str "E") := by
  exact ⟨rfl, by decide⟩

theorem C10_witness :
    setAnnotations (renderTok (Tok.kv (str "nameindb") ['\t'])) =
      .ok [(str "nameindb", [])] ∧
    (∃ e, createEntityFromAst (str "E")
        [⟨[str "X"], some (str "nameindb:\"\t\""), str "string"⟩] = .error e) :=
  ⟨C10_amended.1 ['\t'] (by decide),
   C10_amended.2.1 (str "E")
     [⟨[str "X"], some (str "nameindb:\"\t\""), str "string"⟩]
     ⟨[str "X"], some (str "nameindb:\"\t\""), str "string"⟩
     [(str "nameindb", [])] (by simp) rfl rfl rfl⟩

end ObxGen
